import Mathlib

/-!
Shallow embedding of the World-Heritage-Quiz-Master core logic:
the quiz record type, the CSV codec, the dedup/shuffle utilities, the
question-bank merge, the hardened retrying generation client, the
auto-fill control loop, and the session/play interaction.

Conventions of the embedding:
* JavaScript strings are Lean `String`s; the CSV codec and the error-message
  scanners work on `String.data` (`List Char`), with `splitOnChar`, `joinWith`
  and `trimChars` mirroring the JavaScript `split` / `join` / `trim` calls.
* JavaScript numbers that can be `NaN` (the result of `parseInt` /
  `parseFloat`) are `Option Int` / `Option Rat`, with `none` standing for NaN.
* `Math.random()`-driven choices (fresh ids, shuffle indices, jitter) are
  oracle parameters: a function supplying the random value consumed at each
  step.
* The cooperative auto-fill loop is embedded as a fuel-indexed function over
  an explicit state.  JavaScript is single threaded, so the shared stop flag
  can only change while an `await` is outstanding; the embedding counts one
  logical time tick per `await` and samples the flag as a function of that
  time.  Network responses are an oracle indexed by the call number.
-/

/-- The QuizItem record (src/…/types.ts).  `correct_idx` is `Option Int`
because it is populated by JavaScript `parseInt` on CSV import, whose result
can be NaN (`none`). -/
structure QuizItem where
  id : String
  level : String
  question : String
  option1 : String
  option2 : String
  option3 : String
  option4 : String
  correct_idx : Option Int
  explanation : String
  advanced_explanation : String
  wiki_link : String
  is_japan : Bool
deriving DecidableEq, Repr

/-! ### Character-list primitives mirroring the JavaScript string methods -/

/-- JavaScript `String.prototype.split` with a one-character separator:
`"".split(c) = [""]`, separators at the ends produce empty fields. -/
def splitOnChar (sep : Char) : List Char → List (List Char)
  | [] => [[]]
  | a :: rest =>
    match splitOnChar sep rest with
    | [] => [[]]
    | r :: rs => if a = sep then [] :: r :: rs else (a :: r) :: rs

/-- JavaScript `Array.prototype.join` with a separator string. -/
def joinWith (sep : List Char) : List (List Char) → List Char
  | [] => []
  | [x] => x
  | x :: y :: rest => x ++ sep ++ joinWith sep (y :: rest)

/-- JavaScript `String.prototype.trim`: strip whitespace from both ends. -/
def trimChars (cs : List Char) : List Char :=
  ((cs.dropWhile Char.isWhitespace).reverse.dropWhile Char.isWhitespace).reverse

/-- JavaScript `String.prototype.startsWith`. -/
def listStartsWith (cs pat : List Char) : Bool :=
  cs.take pat.length = pat

/-- JavaScript `String.prototype.toUpperCase` (ASCII-relevant part). -/
def toUpperChars (cs : List Char) : List Char := cs.map Char.toUpper

/-- JavaScript `String.prototype.includes`, on character lists. -/
def strIncludesL (hay pat : List Char) : Bool :=
  match hay with
  | [] => pat.isEmpty
  | _ :: rest => listStartsWith hay pat || strIncludesL rest pat

/-- JavaScript `String.prototype.includes`. -/
def strIncludes (hay pat : String) : Bool := strIncludesL hay.data pat.data

/-- Numeric value of a digit list (most significant first). -/
def digitsVal (ds : List Char) : Nat := ds.foldl (fun n c => 10 * n + (c.toNat - 48)) 0

/-- JavaScript `parseInt(s, 10)`: skip leading whitespace, optional sign, then
a maximal digit prefix; `none` (NaN) when there is no digit. -/
def jsParseIntL (cs : List Char) : Option Int :=
  let cs1 := cs.dropWhile Char.isWhitespace
  match cs1 with
  | '-' :: rest =>
    let ds := rest.takeWhile Char.isDigit
    if ds.isEmpty then none else some (-(digitsVal ds : Int))
  | '+' :: rest =>
    let ds := rest.takeWhile Char.isDigit
    if ds.isEmpty then none else some (digitsVal ds)
  | _ =>
    let ds := cs1.takeWhile Char.isDigit
    if ds.isEmpty then none else some (digitsVal ds)

/-- A digit or a dot, the character class `[\d\.]` of the retry-hint regex. -/
def isDigitOrDot (c : Char) : Bool := c.isDigit || c == '.'

/-- JavaScript `parseFloat` restricted to inputs made of digits and dots (the
only strings the retry-hint regex can capture): parse the prefix
`\d* ('.' \d*)?`; `none` (NaN) when that prefix holds no digit. -/
def parseFloatRun (cs : List Char) : Option Rat :=
  let intDigits := cs.takeWhile Char.isDigit
  let rest := cs.drop intDigits.length
  match rest with
  | '.' :: rest2 =>
    let fracDigits := rest2.takeWhile Char.isDigit
    if intDigits.isEmpty && fracDigits.isEmpty then none
    else some ((digitsVal intDigits : Rat) + (digitsVal fracDigits : Rat) / (10 : Rat) ^ fracDigits.length)
  | _ => if intDigits.isEmpty then none else some ((digitsVal intDigits : Rat))

/-- JavaScript number-to-string for the values stored in `correct_idx`:
integers print in decimal, NaN prints as "NaN". -/
def numToString (n : Option Int) : String :=
  match n with
  | some k => toString k
  | none => "NaN"

/-! ### Deduplication and shuffle utilities (src/utils.ts) -/

/-- The fixed CSV header (src/utils.ts `CSV_HEADER`). -/
def CSV_HEADER : String :=
  "level,question,option1,option2,option3,option4,correct_idx,explanation,advanced_explanation,wiki_link,is_japan"

/-- Model of `isDuplicate` (src/utils.ts): true when some existing item's trimmed
question text equals the trimmed new question text (`trimChars` is the
JavaScript `trim`). -/
def isDuplicate (newQuestion : String) (existingItems : List QuizItem) : Bool :=
  let normalizedNew := trimChars newQuestion.data
  existingItems.any (fun item => trimChars item.question.data == normalizedNew)

/-- Exchange the elements at positions `i` and `j` (identity out of bounds);
the swap step of the Fisher–Yates loop. -/
def listSwap {α : Type} (l : List α) (i j : Nat) : List α :=
  match l[i]?, l[j]? with
  | some a, some b => (l.set i b).set j a
  | _, _ => l

/-- The Fisher–Yates loop of `shuffleArray`, counting `i` down to 1; `rand i`
supplies the random index drawn at step `i` (reduced mod `i+1`, the image of
`Math.floor(Math.random() * (i + 1))`). -/
def shuffleStep {α : Type} (rand : Nat → Nat) : List α → Nat → List α
  | l, 0 => l
  | l, i + 1 => shuffleStep rand (listSwap l (i + 1) (rand (i + 1) % (i + 2))) i

/-- Model of `shuffleArray` (src/utils.ts): Fisher–Yates on a copy of the input. -/
def shuffleArray {α : Type} (rand : Nat → Nat) (l : List α) : List α :=
  shuffleStep rand l (l.length - 1)

/-! ### CSV codec (src/utils.ts `toCSV` / `parseCSV`) -/

/-- The `replace(/"/g, '""')` step of `toCSV`'s `clean`. -/
def escapeQuotes : List Char → List Char
  | [] => []
  | c :: rest => if c == '"' then '"' :: '"' :: escapeQuotes rest else c :: escapeQuotes rest

/-- The `clean` helper inside `toCSV`: wrap in double quotes, doubling embedded quotes. -/
def cleanField (s : String) : List Char := '"' :: (escapeQuotes s.data ++ ['"'])

/-- The eleven column values of one exported CSV row, in source order. -/
def toCSVRowFields (item : QuizItem) : List (List Char) :=
  [item.level.data, cleanField item.question, cleanField item.option1,
   cleanField item.option2, cleanField item.option3, cleanField item.option4,
   (numToString item.correct_idx).data, cleanField item.explanation,
   cleanField item.advanced_explanation, item.wiki_link.data,
   (if item.is_japan then "TRUE" else "FALSE").data]

/-- One exported CSV row: the eleven fields joined with commas. -/
def toCSVRowChars (item : QuizItem) : List Char := joinWith [','] (toCSVRowFields item)

/-- Model of `toCSV` (src/utils.ts): header plus one row per item, joined by newlines. -/
def toCSV (items : List QuizItem) : String :=
  String.mk (joinWith ['\n'] (CSV_HEADER.data :: items.map toCSVRowChars))

/-- Build a QuizItem from a split row with at least 11 fields (the push inside
`parseCSV`); `idStr` is the fresh id produced by `generateId`. -/
def rowToItem (idStr : String) (row : List (List Char)) : QuizItem :=
  { id := idStr,
    level := String.mk (row.getD 0 []),
    question := String.mk (row.getD 1 []),
    option1 := String.mk (row.getD 2 []),
    option2 := String.mk (row.getD 3 []),
    option3 := String.mk (row.getD 4 []),
    option4 := String.mk (row.getD 5 []),
    correct_idx := jsParseIntL (row.getD 6 []),
    explanation := String.mk (row.getD 7 []),
    advanced_explanation := String.mk (row.getD 8 []),
    wiki_link := String.mk (row.getD 9 []),
    is_japan := toUpperChars (row.getD 10 []) == "TRUE".data }

/-- The line split of `parseCSV`: `csvText.trim().split('\n')`. -/
def csvLines (csvText : String) : List (List Char) :=
  splitOnChar '\n' (trimChars csvText.data)

/-- The header skip of `parseCSV`:
`lines[0].startsWith('level,question') ? 1 : 0`. -/
def csvStart (csvText : String) : Nat :=
  if listStartsWith ((csvLines csvText).headD []) ("level,question".data) then 1 else 0

/-- Model of `parseCSV` (src/utils.ts): split into lines, skip an optional header,
split each line on commas, keep rows with at least 11 fields, and build one
item per kept row; `idGen k` is the id `generateId()` returns for the k-th
pushed item. -/
def parseCSV (idGen : Nat → String) (csvText : String) : List QuizItem :=
  let rows := ((csvLines csvText).drop (csvStart csvText)).map (fun l => splitOnChar ',' l)
  let good := rows.filter (fun row => 11 ≤ row.length)
  good.enum.map (fun p => rowToItem (idGen p.1) p.2)

/-! ### Question-bank merge (src/App.tsx `handleGenerateLevel`, lines 160-172) -/

/-- Per-level cap (src/App.tsx `MAX_QUESTIONS_PER_LEVEL`). -/
def MAX_QUESTIONS_PER_LEVEL : Nat := 2000

/-- The per-level target table (src/App.tsx `LEVEL_TARGETS`, with the
`|| 300` fallback of `handleAutoGenerate`). -/
def LEVEL_TARGETS (level : String) : Nat :=
  if level == "3級" then 300
  else if level == "2級" then 600
  else if level == "準1級" then 1000
  else if level == "1級" then 1000
  else 300

/-- The sequence `[...levelItems, ...uniqueNewItems]` before the cap check: the surviving
new items (not duplicates of any bank item) appended after the existing
same-level items. -/
def levelMergedRaw (prevDb : List QuizItem) (level : String) (newItems : List QuizItem) : List QuizItem :=
  (prevDb.filter (fun i => i.level == level)) ++
    (newItems.filter (fun n => !(isDuplicate n.question prevDb)))

/-- The merged same-level sequence after the cap check: when the raw merge
exceeds the cap, `slice(removeCount)` drops the oldest entries. -/
def mergedLevel (prevDb : List QuizItem) (level : String) (newItems : List QuizItem) : List QuizItem :=
  let m := levelMergedRaw prevDb level newItems
  if MAX_QUESTIONS_PER_LEVEL < m.length then m.drop (m.length - MAX_QUESTIONS_PER_LEVEL) else m

/-- The whole bank update of `handleGenerateLevel`:
`[...otherItems, ...mergedLevelItems]`. -/
def mergeBank (prevDb : List QuizItem) (level : String) (newItems : List QuizItem) : List QuizItem :=
  (prevDb.filter (fun i => !(i.level == level))) ++ mergedLevel prevDb level newItems

/-- The bank update of one successful auto-fill batch (src/App.tsx
`handleAutoGenerate`, lines 244-269): filter duplicates against the local
copy, then plain append when any survive — the cap branch there is empty. -/
def autoMergeStep (localDb : List QuizItem) (newItems : List QuizItem) : List QuizItem :=
  let uniqueItems := newItems.filter (fun n => !(isDuplicate n.question localDb))
  if 0 < uniqueItems.length then localDb ++ uniqueItems else localDb

/-- The count `localDb.filter(i => i.level === level).length`. -/
def levelCount (db : List QuizItem) (level : String) : Nat :=
  (db.filter (fun i => i.level == level)).length

/-! ### Review session (src/App.tsx `handleReviewLevel`) -/

/-- Constant `DEFAULT_SESSION_COUNT` (src/App.tsx). -/
def DEFAULT_SESSION_COUNT : Nat := 10

/-- Outcome of starting a review: the nothing-to-review alert, or a session. -/
inductive ReviewOutcome where
  | noItems : ReviewOutcome
  | session : List QuizItem → ReviewOutcome
deriving DecidableEq

/-- Model of `handleReviewLevel`: alert and no session when the level has no saved
items, otherwise shuffle the level's items and keep the first 10. -/
def handleReviewLevel (rand : Nat → Nat) (dbItems : List QuizItem) (level : String) : ReviewOutcome :=
  let levelItems := dbItems.filter (fun i => i.level == level)
  if levelItems.length = 0 then ReviewOutcome.noItems
  else ReviewOutcome.session ((shuffleArray rand levelItems).take DEFAULT_SESSION_COUNT)

/-! ### Play interaction (src/App.tsx `handleAnswer`) -/

/-- The per-session play state tracked by the App component. -/
structure PlayState where
  sessionItems : List QuizItem
  currentQIndex : Nat
  selectedOption : Option Int
  showResult : Bool
  score : Nat
deriving DecidableEq

/-- Model of `handleAnswer`: ignore clicks once the result is shown; otherwise record
the selection, reveal the result, and bump the score exactly when the clicked
index equals the current question's `correct_idx`.  (The `none` branch cannot
arise in the UI: `renderPlay` only renders when the current question exists.) -/
def handleAnswer (s : PlayState) (idx : Int) : PlayState :=
  if s.showResult then s
  else
    match s.sessionItems.get? s.currentQIndex with
    | some q =>
      { s with selectedOption := some idx, showResult := true,
               score := if q.correct_idx = some idx then s.score + 1 else s.score }
    | none => { s with selectedOption := some idx, showResult := true }

/-! ### Hardened generation client (src/unnamed/part_000 `generateQuizBatch`) -/

/-- The observable fields of a JavaScript error object used by the retry
classifier; `message` is `none` when the property is absent. -/
structure JsError where
  message : Option String
  status : Option Int
  code : Option Int
deriving DecidableEq

/-- Model of `error.message?.includes(sub)`: `false` when the message is absent. -/
def optIncludes (m : Option String) (sub : String) : Bool :=
  match m with
  | some s => strIncludes s sub
  | none => false

/-- The retryability classifier of the hardened `generateQuizBatch`
(lines 137-145): 503/overloaded or 429/quota, by message or status/code. -/
def isRetryable (e : JsError) : Bool :=
  optIncludes e.message "503" || optIncludes e.message "overloaded" ||
  optIncludes e.message "429" || optIncludes e.message "quota" ||
  e.status == some 503 || e.code == some 503 ||
  e.status == some 429 || e.code == some 429

/-- Outcome of one attempt of the batch call, as seen by the retry loop: a
parsed item list, or any error thrown inside the `try` block. -/
inductive CallResult (α : Type) where
  | success : α → CallResult α
  | failure : JsError → CallResult α

/-- The fallback of the final `throw lastError || new Error(...)`. -/
def genericRetryError : JsError :=
  { message := some "Failed to generate quiz questions after multiple attempts.",
    status := none, code := none }

/-- Constant `maxRetries` of the hardened client. -/
def maxRetries : Nat := 5

/-- The retry loop of the hardened `generateQuizBatch`: `oracle a` is the
outcome of the attempt with index `a`.  Returns the surfaced result together
with the total number of attempts performed.  A retryable failure below the
budget continues; a non-retryable failure breaks and the exhausted-budget exit
re-throws the last error — both surface that error. -/
def retryGo {α : Type} (oracle : Nat → CallResult α) (attempt : Nat) (lastError : Option JsError) :
    Except JsError α × Nat :=
  if attempt ≤ maxRetries then
    match oracle attempt with
    | CallResult.success v => (Except.ok v, attempt + 1)
    | CallResult.failure e =>
      if isRetryable e && decide (attempt < maxRetries) then retryGo oracle (attempt + 1) (some e)
      else (Except.error e, attempt + 1)
  else (Except.error (lastError.getD genericRetryError), attempt)
termination_by maxRetries + 1 - attempt
decreasing_by
  simp only [maxRetries] at *
  omega

/-- The hardened `generateQuizBatch` seen from its caller: the loop run from
attempt 0 with no recorded error. -/
def generateBatchResult {α : Type} (oracle : Nat → CallResult α) : Except JsError α :=
  (retryGo oracle 0 none).1

/-- Number of attempts (API calls) the hardened client performs. -/
def retryCalls {α : Type} (oracle : Nat → CallResult α) : Nat :=
  (retryGo oracle 0 none).2

/-! ### Backoff computation (src/unnamed/part_000 lines 78-95) -/

/-- The literal `"retry in "`, the fixed part of the server-hint regex
`/retry in ([\d\.]+)s/`. -/
def retryHintPat : List Char := "retry in ".data

/-- First match of `/retry in ([\d\.]+)s/`: scan for `"retry in "` followed by
a non-empty maximal run of digits/dots followed by `'s'`; return the captured
run.  (No shorter run can match, since every character of the run differs from
`'s'`, so maximal-run matching coincides with the regex engine.) -/
def findRetryHint : List Char → Option (List Char)
  | [] => none
  | c :: rest =>
    if listStartsWith (c :: rest) retryHintPat then
      let after := (c :: rest).drop retryHintPat.length
      let run := after.takeWhile isDigitOrDot
      if !run.isEmpty && ((after.drop run.length).head? == some 's') then some run
      else findRetryHint rest
    else findRetryHint rest

/-- The wait computed before a retry (milliseconds, `none` = NaN): the
exponential default `2^attempt * 1000 + jitter * 1000` (with
`jitter = Math.random() ∈ [0,1)`), overridden by `hint * 1000 + 1000` when the
last error's message matches the retry-hint regex. -/
def computedWait (attempt : Nat) (lastErrorMsg : Option String) (jitter : Rat) : Option Rat :=
  let defaultWait : Rat := (2 : Rat) ^ attempt * 1000 + jitter * 1000
  match lastErrorMsg with
  | none => some defaultWait
  | some m =>
    match findRetryHint m.data with
    | some grp => (parseFloatRun grp).map (fun s => s * 1000 + 1000)
    | none => some defaultWait

/-! ### Auto-fill control loop (src/App.tsx `handleAutoGenerate`, lines 192-334)

One logical time tick per `await` (the batch call and every `sleep`); the
stop flag is sampled as `flag t`, constant across each synchronous block. -/

/-- Outcome of one `generateQuizBatch` call inside the loop. -/
inductive BatchResult where
  | success : List QuizItem → BatchResult
  | failure : JsError → BatchResult

/-- The two terminal alerts of `handleAutoGenerate`, each carrying the final
count: the target-reached celebration, or the stopped-by-user message. -/
inductive AutoResult where
  | targetReached : Nat → AutoResult
  | stoppedByUser : Nat → AutoResult
deriving DecidableEq

/-- Loop-carried state: the local DB copy, the logical time (number of awaits
so far), the number of batch calls made, and the times they were issued at. -/
structure AutoState where
  db : List QuizItem
  t : Nat
  calls : Nat
  callTimes : List Nat
deriving DecidableEq

/-- A countdown `for` loop of `n` one-second sleeps, breaking as soon as the
flag shows set; returns the time after the loop. -/
def countdown (flag : Nat → Bool) : Nat → Nat → Nat
  | 0, t => t
  | n + 1, t => if flag t then t else countdown flag n (t + 1)

/-- The `catch` branch of the loop body: a 60-second countdown for
rate-limit-looking messages, a single 10-second sleep for overload, a single
5-second sleep otherwise. -/
def errorPause (flag : Nat → Bool) (e : JsError) (s : AutoState) : AutoState :=
  let msg := e.message.getD ""
  if strIncludes msg "429" || strIncludes msg "quota" || strIncludes msg "retry" then
    { s with t := countdown flag 60 s.t }
  else if strIncludes msg "503" || strIncludes msg "overloaded" then
    { s with t := s.t + 1 }
  else
    { s with t := s.t + 1 }

/-- The five-second rest between batches, entered only while below target and
not stopping. -/
def restPhase (flag : Nat → Bool) (target count : Nat) (s : AutoState) : AutoState :=
  if count < target && !flag s.t then { s with t := countdown flag 5 s.t } else s

/-- The `while (currentCount < target && !stopAutoRef.current)` loop of
`handleAutoGenerate`, with `fuel` bounding the number of iterations
(`none` = fuel exhausted before the loop ended).  `oracle k` is the outcome of
the k-th batch call.  Returns the terminal alert and the final state. -/
def autoLoop (oracle : Nat → BatchResult) (flag : Nat → Bool) (level : String) (target : Nat) :
    Nat → AutoState → Option (AutoResult × AutoState)
  | 0, _ => none
  | fuel + 1, s =>
    let count := levelCount s.db level
    if count < target then
      if flag s.t then some (AutoResult.stoppedByUser count, s)
      else
        -- batchSize = min 10 (target - count) ≥ 1 is passed to the call;
        -- the oracle abstracts the response, so it is not tracked here.
        let s1 : AutoState :=
          { s with t := s.t + 1, calls := s.calls + 1, callTimes := s.callTimes ++ [s.t] }
        match oracle s.calls with
        | BatchResult.success items =>
          if flag s1.t then some (AutoResult.stoppedByUser count, s1)
          else
            let uniqueItems := items.filter (fun n => !(isDuplicate n.question s1.db))
            let db2 := if 0 < uniqueItems.length then s1.db ++ uniqueItems else s1.db
            autoLoop oracle flag level target fuel
              (restPhase flag target (levelCount db2 level) { s1 with db := db2 })
        | BatchResult.failure e =>
          if flag s1.t then some (AutoResult.stoppedByUser count, s1)
          else
            autoLoop oracle flag level target fuel
              (restPhase flag target count (errorPause flag e s1))
    else some (AutoResult.targetReached count, s)

/-- Model of `handleAutoGenerate` from its start: time 0, no calls made yet. -/
def runAuto (oracle : Nat → BatchResult) (flag : Nat → Bool) (level : String) (target : Nat)
    (fuel : Nat) (db : List QuizItem) : Option (AutoResult × AutoState) :=
  autoLoop oracle flag level target fuel { db := db, t := 0, calls := 0, callTimes := [] }

/-- The stop flag is set once and never cleared while the loop runs
(`handleStopAuto` only writes `true`). -/
def FlagMono (flag : Nat → Bool) : Prop :=
  ∀ a b : Nat, a ≤ b → flag a = true → flag b = true

/-! ### Specification-side vocabulary -/

/-- The bank invariant of the spec: no two items of the same level carry equal
trimmed question text. -/
def BankOk (db : List QuizItem) : Prop :=
  db.Pairwise (fun a b => a.level = b.level →
    trimChars a.question.data ≠ trimChars b.question.data)

instance decidableBankOk (db : List QuizItem) : Decidable (BankOk db) :=
  inferInstanceAs (Decidable (db.Pairwise (fun a b : QuizItem => a.level = b.level →
    trimChars a.question.data ≠ trimChars b.question.data)))

/-- A text field safe for the naive CSV codec: no comma, no double quote, no
newline. -/
def CleanText (s : String) : Prop :=
  (',' ∈ s.data → False) ∧ ('"' ∈ s.data → False) ∧ ('\n' ∈ s.data → False)

instance decidableCleanText (s : String) : Decidable (CleanText s) :=
  inferInstanceAs (Decidable ((',' ∈ s.data → False) ∧ ('"' ∈ s.data → False) ∧
    ('\n' ∈ s.data → False)))

/-- A QuizItem that is well formed for CSV round-tripping: clean text fields
and a `correct_idx` in the data model's range 0..3. -/
def WellFormedForCsv (q : QuizItem) : Prop :=
  CleanText q.level ∧ CleanText q.question ∧ CleanText q.option1 ∧ CleanText q.option2 ∧
  CleanText q.option3 ∧ CleanText q.option4 ∧ CleanText q.explanation ∧
  CleanText q.advanced_explanation ∧ CleanText q.wiki_link ∧
  (q.correct_idx = some 0 ∨ q.correct_idx = some 1 ∨ q.correct_idx = some 2 ∨
    q.correct_idx = some 3)

instance decidableWellFormedForCsv (q : QuizItem) : Decidable (WellFormedForCsv q) :=
  inferInstanceAs (Decidable (CleanText q.level ∧ CleanText q.question ∧
    CleanText q.option1 ∧ CleanText q.option2 ∧ CleanText q.option3 ∧ CleanText q.option4 ∧
    CleanText q.explanation ∧ CleanText q.advanced_explanation ∧ CleanText q.wiki_link ∧
    (q.correct_idx = some 0 ∨ q.correct_idx = some 1 ∨ q.correct_idx = some 2 ∨
      q.correct_idx = some 3)))

/-- Wrap a string in one pair of double quotes. -/
def quoteStr (s : String) : String := "\"" ++ s ++ "\""

/-- What one export-import cycle actually does to a clean item: fresh id, and
every `clean`-ed text field wrapped in one extra pair of quotes. -/
def requote (newId : String) (q : QuizItem) : QuizItem :=
  { q with id := newId, question := quoteStr q.question, option1 := quoteStr q.option1,
           option2 := quoteStr q.option2, option3 := quoteStr q.option3,
           option4 := quoteStr q.option4, explanation := quoteStr q.explanation,
           advanced_explanation := quoteStr q.advanced_explanation }

/-! ### Sample data used by witnesses and counterexamples -/

/-- A sample bank item at level 3級. -/
def itmA : QuizItem :=
  { id := "a1", level := "3級", question := "q1", option1 := "o1", option2 := "o2",
    option3 := "o3", option4 := "o4", correct_idx := some 0, explanation := "e1",
    advanced_explanation := "", wiki_link := "w1", is_japan := true }

/-- A second sample item with a different question text. -/
def itmB : QuizItem :=
  { id := "b1", level := "3級", question := "q2", option1 := "o1", option2 := "o2",
    option3 := "o3", option4 := "o4", correct_idx := some 1, explanation := "e2",
    advanced_explanation := "a2", wiki_link := "w2", is_japan := false }

/-- Two batch items sharing one question text (a batch-internal duplicate). -/
def dupA : QuizItem :=
  { id := "d1", level := "3級", question := "dup", option1 := "o1", option2 := "o2",
    option3 := "o3", option4 := "o4", correct_idx := some 0, explanation := "e",
    advanced_explanation := "", wiki_link := "w", is_japan := false }

/-- The second copy of the duplicated batch item (fresh id, same question). -/
def dupB : QuizItem :=
  { id := "d2", level := "3級", question := "dup", option1 := "p1", option2 := "p2",
    option3 := "p3", option4 := "p4", correct_idx := some 1, explanation := "f",
    advanced_explanation := "", wiki_link := "v", is_japan := true }

/-- A retryable error (overloaded). -/
def eRetry : JsError := { message := some "503 overloaded", status := none, code := none }

/-- A non-retryable error. -/
def eFatal : JsError := { message := some "safety block", status := none, code := none }

/-- A fresh play state over a one-question session on `itmB`. -/
def ps0 : PlayState :=
  { sessionItems := [itmB], currentQIndex := 0, selectedOption := none,
    showResult := false, score := 0 }

/-- Attempt `i` of the oracle failed with a retryable error. -/
def RetryFailAt {α : Type} (oracle : Nat → CallResult α) (i : Nat) : Prop :=
  ∃ e, oracle i = CallResult.failure e ∧ isRetryable e = true

/-- A concrete call schedule: one retryable failure, then a fatal error. -/
def oracle0 : Nat → CallResult (List QuizItem) :=
  fun i => if i = 0 then CallResult.failure eRetry else CallResult.failure eFatal

/-! ## Helper lemmas -/

theorem filter_replicate_of_pos {α : Type} (p : α → Bool) (a : α) (h : p a = true) :
    ∀ n : Nat, (List.replicate n a).filter p = List.replicate n a := by
  intro n
  induction n with
  | zero => rfl
  | succ m ih => simp [List.replicate_succ, List.filter_cons, h, ih]

theorem any_replicate_of_neg {α : Type} (p : α → Bool) (a : α) (h : p a = false) :
    ∀ n : Nat, (List.replicate n a).any p = false := by
  intro n
  induction n with
  | zero => rfl
  | succ m ih => simp [List.replicate_succ, List.any_cons, h, ih]

/-! ## C5 — eviction keeps exactly the cap, most-recent first -/

/-- C5: whenever the raw same-level merge (existing level items followed by
the surviving new items) exceeds the per-level cap, the resulting level
sequence has exactly `MAX_QUESTIONS_PER_LEVEL` items and is the final segment
of the raw merge — the most recently added items, the oldest evicted. -/
theorem c5_eviction_keeps_cap (prevDb : List QuizItem) (level : String)
    (newItems : List QuizItem)
    (h : MAX_QUESTIONS_PER_LEVEL < (levelMergedRaw prevDb level newItems).length) :
    (mergedLevel prevDb level newItems).length = MAX_QUESTIONS_PER_LEVEL ∧
    levelMergedRaw prevDb level newItems =
      (levelMergedRaw prevDb level newItems).take
          ((levelMergedRaw prevDb level newItems).length - MAX_QUESTIONS_PER_LEVEL) ++
        mergedLevel prevDb level newItems ∧
    MAX_QUESTIONS_PER_LEVEL = 2000 := by
  have hm : mergedLevel prevDb level newItems =
      (levelMergedRaw prevDb level newItems).drop
        ((levelMergedRaw prevDb level newItems).length - MAX_QUESTIONS_PER_LEVEL) := by
    unfold mergedLevel
    rw [if_pos h]
  refine ⟨?_, ?_, rfl⟩
  · rw [hm, List.length_drop]
    omega
  · rw [hm, List.take_append_drop]

theorem c5_witness :
    MAX_QUESTIONS_PER_LEVEL < (levelMergedRaw (List.replicate 2001 itmA) "3級" []).length ∧
    ((mergedLevel (List.replicate 2001 itmA) "3級" []).length = MAX_QUESTIONS_PER_LEVEL ∧
      levelMergedRaw (List.replicate 2001 itmA) "3級" [] =
        (levelMergedRaw (List.replicate 2001 itmA) "3級" []).take
            ((levelMergedRaw (List.replicate 2001 itmA) "3級" []).length -
              MAX_QUESTIONS_PER_LEVEL) ++
          mergedLevel (List.replicate 2001 itmA) "3級" [] ∧
      MAX_QUESTIONS_PER_LEVEL = 2000) := by
  have hlen : (levelMergedRaw (List.replicate 2001 itmA) "3級" []).length = 2001 := by
    unfold levelMergedRaw
    rw [filter_replicate_of_pos _ _ (by decide), List.filter_nil, List.append_nil,
      List.length_replicate]
  have h : MAX_QUESTIONS_PER_LEVEL < (levelMergedRaw (List.replicate 2001 itmA) "3級" []).length := by
    rw [hlen]; decide
  exact ⟨h, c5_eviction_keeps_cap (List.replicate 2001 itmA) "3級" [] h⟩

/-! ## C7 — the auto-fill merge path never evicts -/

/-- C7: each successful auto-fill batch merge is a plain append of the
non-duplicate survivors — every existing item is kept — and a level can
thereby exceed the 2000-item cap that the single-shot merge enforces
(2001 items at level 3級 in the concrete instance). -/
theorem c7_auto_merge_appends :
    (∀ (localDb newItems : List QuizItem),
        autoMergeStep localDb newItems =
          localDb ++ newItems.filter (fun n => !(isDuplicate n.question localDb))) ∧
    (∀ (localDb newItems : List QuizItem),
        ∃ appended, autoMergeStep localDb newItems = localDb ++ appended) ∧
    levelCount (autoMergeStep (List.replicate 2000 itmA) [itmB]) "3級" = 2001 ∧
    MAX_QUESTIONS_PER_LEVEL = 2000 := by
  have happ : ∀ (localDb newItems : List QuizItem),
      autoMergeStep localDb newItems =
        localDb ++ newItems.filter (fun n => !(isDuplicate n.question localDb)) := by
    intro db ns
    simp only [autoMergeStep]
    split
    · rfl
    · next hneg =>
      have h0 : (ns.filter (fun n => !(isDuplicate n.question db))).length = 0 := by omega
      rw [List.length_eq_zero] at h0
      rw [h0, List.append_nil]
  refine ⟨happ, fun db ns => ⟨_, happ db ns⟩, ?_, rfl⟩
  have hdup : isDuplicate itmB.question (List.replicate 2000 itmA) = false := by
    unfold isDuplicate
    exact any_replicate_of_neg _ _ (by decide) 2000
  have hfb : List.filter (fun n => !(isDuplicate n.question (List.replicate 2000 itmA))) [itmB] =
      [itmB] := by
    rw [List.filter_cons, List.filter_nil, if_pos (by rw [hdup]; rfl)]
  rw [happ, levelCount, hfb, List.filter_append,
    filter_replicate_of_pos (fun i : QuizItem => i.level == "3級") itmA rfl 2000,
    List.filter_cons, List.filter_nil,
    if_pos (show (itmB.level == "3級") = true from rfl),
    List.length_append, List.length_replicate, List.length_singleton]

/-! ## C8 — parseCSV keeps exactly the rows with at least 11 fields -/

/-- C8: `parseCSV` produces exactly one item per data row whose comma split
has at least 11 fields — shorter rows are skipped — and on the concrete
3-row input with one 9-column row and two 11-column rows it returns exactly
2 items. -/
theorem c8_parse_row_filter :
    (∀ (idGen : Nat → String) (csvText : String),
        (parseCSV idGen csvText).length =
          ((csvLines csvText).drop (csvStart csvText)).countP
            (fun l => 11 ≤ (splitOnChar ',' l).length)) ∧
    (∀ idGen : Nat → String,
        (parseCSV idGen
            ("a,b,c,d,e,f,g,h,i\n3級,q1,o1,o2,o3,o4,0,e1,a1,w1,TRUE\n3級,q2,o1,o2,o3,o4,1,e2,a2,w2,FALSE")).length = 2) := by
  have hlen : ∀ (idGen : Nat → String) (csvText : String),
      (parseCSV idGen csvText).length =
        ((csvLines csvText).drop (csvStart csvText)).countP
          (fun l => 11 ≤ (splitOnChar ',' l).length) := by
    intro idGen csvText
    unfold parseCSV
    rw [List.length_map, List.enum_length, ← List.countP_eq_length_filter, List.countP_map]
    rfl
  refine ⟨hlen, fun idGen => ?_⟩
  rw [hlen]
  decide

/-! ## C9 — answer selection locks, reveals, and scores exactly once -/

/-- C9: with the result not yet shown and a current question `q`, selecting
index `idx` records the selection and reveals the result; the score rises by
exactly 1 when `idx` equals `q.correct_idx` and is unchanged otherwise; and
every later selection on the revealed state is ignored, so at most one answer
can be selected per question. -/
theorem c9_answer_once (s : PlayState) (idx : Int) (q : QuizItem)
    (hq : s.sessionItems.get? s.currentQIndex = some q)
    (hs : s.showResult = false) :
    (handleAnswer s idx).showResult = true ∧
    (handleAnswer s idx).selectedOption = some idx ∧
    (q.correct_idx = some idx → (handleAnswer s idx).score = s.score + 1) ∧
    (q.correct_idx ≠ some idx → (handleAnswer s idx).score = s.score) ∧
    (∀ idx2 : Int, handleAnswer (handleAnswer s idx) idx2 = handleAnswer s idx) := by
  have hstep : handleAnswer s idx =
      { s with selectedOption := some idx, showResult := true,
               score := if q.correct_idx = some idx then s.score + 1 else s.score } := by
    unfold handleAnswer
    rw [if_neg (by rw [hs]; exact Bool.false_ne_true), hq]
  refine ⟨by rw [hstep], by rw [hstep], ?_, ?_, ?_⟩
  · intro hc; rw [hstep]; simp [hc]
  · intro hc; rw [hstep]; simp [hc]
  · intro idx2
    rw [hstep]
    unfold handleAnswer
    rw [if_pos rfl]

theorem c9_witness :
    (ps0.sessionItems.get? ps0.currentQIndex = some itmB) ∧ (ps0.showResult = false) ∧
    ((handleAnswer ps0 1).showResult = true ∧
      (handleAnswer ps0 1).selectedOption = some 1 ∧
      (itmB.correct_idx = some 1 → (handleAnswer ps0 1).score = ps0.score + 1) ∧
      (itmB.correct_idx ≠ some 1 → (handleAnswer ps0 1).score = ps0.score) ∧
      (∀ idx2 : Int, handleAnswer (handleAnswer ps0 1) idx2 = handleAnswer ps0 1)) :=
  ⟨rfl, rfl, c9_answer_once ps0 1 itmB rfl rfl⟩

/-! ## C10 — review sessions -/

theorem cons_set_perm {α : Type} :
    ∀ (t : List α) (k : Nat) (b x : α), t[k]? = some b →
      List.Perm (b :: t.set k x) (x :: t) := by
  intro t
  induction t with
  | nil => intro k b x h; cases h
  | cons c t' ih =>
    intro k b x h
    cases k with
    | zero =>
      rw [List.getElem?_cons_zero] at h
      cases h
      exact List.Perm.swap x c t'
    | succ k' =>
      rw [List.getElem?_cons_succ] at h
      show List.Perm (b :: c :: t'.set k' x) (x :: c :: t')
      have h1 : List.Perm (b :: c :: t'.set k' x) (c :: b :: t'.set k' x) :=
        List.Perm.swap c b _
      have h2 : List.Perm (c :: b :: t'.set k' x) (c :: x :: t') := (ih k' b x h).cons c
      have h3 : List.Perm (c :: x :: t') (x :: c :: t') := List.Perm.swap x c t'
      exact (h1.trans h2).trans h3

theorem listSwap_perm {α : Type} :
    ∀ (l : List α) (i j : Nat), List.Perm (listSwap l i j) l := by
  intro l
  induction l with
  | nil => intro i j; exact List.Perm.refl _
  | cons x t ih =>
    intro i j
    unfold listSwap
    cases i with
    | zero =>
      rw [List.getElem?_cons_zero]
      cases j with
      | zero =>
        rw [List.getElem?_cons_zero]
        exact List.Perm.refl _
      | succ j' =>
        rw [List.getElem?_cons_succ]
        cases hj : t[j']? with
        | none => exact List.Perm.refl _
        | some b =>
          show List.Perm (b :: t.set j' x) (x :: t)
          exact cons_set_perm t j' b x hj
    | succ i' =>
      rw [List.getElem?_cons_succ]
      cases hi : t[i']? with
      | none => exact List.Perm.refl _
      | some a =>
        cases j with
        | zero =>
          rw [List.getElem?_cons_zero]
          show List.Perm (a :: t.set i' x) (x :: t)
          exact cons_set_perm t i' a x hi
        | succ j' =>
          rw [List.getElem?_cons_succ]
          cases hj : t[j']? with
          | none => exact List.Perm.refl _
          | some b =>
            show List.Perm (x :: (t.set i' b).set j' a) (x :: t)
            have hrec := ih i' j'
            unfold listSwap at hrec
            rw [hi, hj] at hrec
            exact hrec.cons x

theorem shuffleStep_perm {α : Type} (rand : Nat → Nat) :
    ∀ (n : Nat) (l : List α), List.Perm (shuffleStep rand l n) l := by
  intro n
  induction n with
  | zero => intro l; exact List.Perm.refl l
  | succ m ih =>
    intro l
    exact (ih _).trans (listSwap_perm l (m + 1) (rand (m + 1) % (m + 2)))

theorem shuffleArray_perm {α : Type} (rand : Nat → Nat) (l : List α) :
    List.Perm (shuffleArray rand l) l :=
  shuffleStep_perm rand (l.length - 1) l

/-- C10: starting a review for a level with no saved items yields the
nothing-to-review outcome and no session; for a level with at least one saved
item the session is the first 10 elements of a permutation (the Fisher–Yates
shuffle) of all the level's bank items. -/
theorem c10_review_session (rand : Nat → Nat) (dbItems : List QuizItem) (level : String) :
    ((dbItems.filter (fun i => i.level == level)).length = 0 →
      handleReviewLevel rand dbItems level = ReviewOutcome.noItems) ∧
    ((dbItems.filter (fun i => i.level == level)).length ≠ 0 →
      ∃ shuffled, List.Perm shuffled (dbItems.filter (fun i => i.level == level)) ∧
        handleReviewLevel rand dbItems level =
          ReviewOutcome.session (shuffled.take DEFAULT_SESSION_COUNT) ∧
        DEFAULT_SESSION_COUNT = 10) := by
  constructor
  · intro h
    unfold handleReviewLevel
    rw [if_pos h]
  · intro h
    refine ⟨shuffleArray rand (dbItems.filter (fun i => i.level == level)),
      shuffleArray_perm rand _, ?_, rfl⟩
    unfold handleReviewLevel
    rw [if_neg h]

theorem c10_witness :
    ((([] : List QuizItem).filter (fun i => i.level == "3級")).length = 0 →
        handleReviewLevel (fun _ => 0) [] "3級" = ReviewOutcome.noItems) ∧
    handleReviewLevel (fun _ => 0) [] "3級" = ReviewOutcome.noItems ∧
    (([itmA].filter (fun i => i.level == "3級")).length ≠ 0 ∧
      ∃ shuffled, List.Perm shuffled ([itmA].filter (fun i => i.level == "3級")) ∧
        handleReviewLevel (fun _ => 0) [itmA] "3級" =
          ReviewOutcome.session (shuffled.take DEFAULT_SESSION_COUNT) ∧
        DEFAULT_SESSION_COUNT = 10) := by
  refine ⟨(c10_review_session (fun _ => 0) [] "3級").1,
    (c10_review_session (fun _ => 0) [] "3級").1 rfl, ?_, ?_⟩
  · decide
  · exact (c10_review_session (fun _ => 0) [itmA] "3級").2 (by decide)

/-! ## C3 — server wait hint overrides exponential backoff -/

theorem parseFloatRun_three_point_five : parseFloatRun ['3', '.', '5'] = some ((7 : Rat) / 2) := by
  have h : parseFloatRun ['3', '.', '5'] =
      some ((digitsVal ['3'] : Rat) + (digitsVal ['5'] : Rat) / (10 : Rat) ^ (1 : Nat)) := rfl
  rw [h, show digitsVal ['3'] = 3 from rfl, show digitsVal ['5'] = 5 from rfl]
  norm_num

/-- C3: when the last error's message matches the server hint pattern
`retry in <seconds>s` with `<seconds>` parsing to the rational `q`, the
computed wait is `q * 1000 + 1000` milliseconds, overriding the exponential
schedule; when the message contains no such pattern the wait is the
exponential default `2^attempt` seconds plus the jitter, which lies within
one second above the exponential base.  On the concrete message
`"... please retry in 3.5s."` the wait is 4500 ms. -/
theorem c3_backoff_hint (attempt : Nat) (jitter : Rat) (h0 : 0 ≤ jitter) (h1 : jitter < 1) :
    (∀ (m : String) (grp : List Char) (q : Rat),
        findRetryHint m.data = some grp → parseFloatRun grp = some q →
        computedWait attempt (some m) jitter = some (q * 1000 + 1000)) ∧
    (∀ m : String, findRetryHint m.data = none →
        computedWait attempt (some m) jitter =
          some ((2 : Rat) ^ attempt * 1000 + jitter * 1000) ∧
        (2 : Rat) ^ attempt * 1000 ≤ (2 : Rat) ^ attempt * 1000 + jitter * 1000 ∧
        (2 : Rat) ^ attempt * 1000 + jitter * 1000 < (2 : Rat) ^ attempt * 1000 + 1000) ∧
    computedWait attempt (some "The model is overloaded. Please retry in 3.5s.") jitter =
      some 4500 := by
  refine ⟨?_, ?_, ?_⟩
  · intro m grp q hfind hparse
    simp only [computedWait, hfind, hparse, Option.map]
  · intro m hfind
    refine ⟨by simp only [computedWait, hfind], by nlinarith, by nlinarith⟩
  · have hfind : findRetryHint ("The model is overloaded. Please retry in 3.5s.".data) =
        some ['3', '.', '5'] := by decide
    simp only [computedWait, hfind, parseFloatRun_three_point_five, Option.map]
    norm_num

theorem c3_witness :
    ((0 : Rat) ≤ 1 / 2) ∧ ((1 : Rat) / 2 < 1) ∧
    computedWait 3 (some "The model is overloaded. Please retry in 3.5s.") (1 / 2) =
      some 4500 :=
  ⟨by norm_num, by norm_num,
    (c3_backoff_hint 3 (1 / 2) (by norm_num) (by norm_num)).2.2⟩

/-! ## C4 — retry budget and classification -/

theorem retryGo_step {α : Type} (oracle : Nat → CallResult α) (a : Nat) (e : JsError)
    (ha : a < maxRetries) (he : oracle a = CallResult.failure e) (hr : isRetryable e = true)
    (last : Option JsError) :
    retryGo oracle a last = retryGo oracle (a + 1) (some e) := by
  have hd : (isRetryable e && decide (a < maxRetries)) = true := by
    rw [hr, decide_eq_true ha]
    rfl
  conv_lhs => rw [retryGo]
  rw [if_pos (Nat.le_of_lt ha), he]
  dsimp only
  rw [if_pos hd]

theorem retryGo_fatal {α : Type} (oracle : Nat → CallResult α) (a : Nat) (e : JsError)
    (ha : a ≤ maxRetries) (he : oracle a = CallResult.failure e)
    (hr : isRetryable e = false) (last : Option JsError) :
    retryGo oracle a last = (Except.error e, a + 1) := by
  have hd : (isRetryable e && decide (a < maxRetries)) = false := by
    rw [hr]
    rfl
  conv_lhs => rw [retryGo]
  rw [if_pos ha, he]
  dsimp only
  rw [if_neg (by rw [hd]; exact Bool.false_ne_true)]

theorem retryGo_exhaust {α : Type} (oracle : Nat → CallResult α) (e : JsError)
    (he : oracle maxRetries = CallResult.failure e) (hr : isRetryable e = true)
    (last : Option JsError) :
    retryGo oracle maxRetries last = (Except.error e, maxRetries + 1) := by
  have hd : (isRetryable e && decide (maxRetries < maxRetries)) = false := by
    rw [hr]
    simp
  conv_lhs => rw [retryGo]
  rw [if_pos (Nat.le_refl _), he]
  dsimp only
  rw [if_neg (by rw [hd]; exact Bool.false_ne_true)]

theorem retryGo_success {α : Type} (oracle : Nat → CallResult α) (a : Nat) (v : α)
    (ha : a ≤ maxRetries) (he : oracle a = CallResult.success v) (last : Option JsError) :
    retryGo oracle a last = (Except.ok v, a + 1) := by
  conv_lhs => rw [retryGo]
  rw [if_pos ha, he]

theorem retryGo_skip {α : Type} (oracle : Nat → CallResult α) :
    ∀ k : Nat, k ≤ maxRetries → (∀ i, i < k → RetryFailAt oracle i) →
      ∀ last : Option JsError, ∃ last2, retryGo oracle 0 last = retryGo oracle k last2 := by
  intro k
  induction k with
  | zero => intro _ _ last; exact ⟨last, rfl⟩
  | succ m ih =>
    intro hk hfail last
    obtain ⟨last2, h2⟩ := ih (Nat.le_of_succ_le hk) (fun i hi => hfail i (Nat.lt_succ_of_lt hi)) last
    obtain ⟨e, he, hr⟩ := hfail m (Nat.lt_succ_self m)
    exact ⟨some e, h2.trans (retryGo_step oracle m e hk he hr last2)⟩

theorem retryGo_calls_le {α : Type} (oracle : Nat → CallResult α) :
    ∀ (fuel a : Nat) (last : Option JsError), maxRetries + 1 - a ≤ fuel →
      a ≤ maxRetries + 1 → (retryGo oracle a last).2 ≤ maxRetries + 1 := by
  intro fuel
  induction fuel with
  | zero =>
    intro a last hf ha
    have h6 : ¬ a ≤ maxRetries := by
      simp only [maxRetries] at hf ha ⊢
      omega
    unfold retryGo
    rw [if_neg h6]
    exact ha
  | succ n ih =>
    intro a last hf ha
    by_cases hle : a ≤ maxRetries
    · unfold retryGo
      rw [if_pos hle]
      cases ho : oracle a with
      | success v =>
        show a + 1 ≤ maxRetries + 1
        omega
      | failure e =>
        dsimp only
        by_cases hrc : (isRetryable e && decide (a < maxRetries)) = true
        · rw [if_pos hrc]
          exact ih (a + 1) (some e) (by simp only [maxRetries] at hf ⊢; omega)
            (Nat.succ_le_succ hle)
        · rw [if_neg hrc]
          show a + 1 ≤ maxRetries + 1
          omega
    · unfold retryGo
      rw [if_neg hle]
      exact ha

/-- C4: the hardened client makes at most `maxRetries + 1 = 6` attempts (at
most 5 retries beyond the first); after a run of retryable failures, a
non-retryable error at attempt `k` surfaces immediately with no further
attempt; if every attempt fails retryably the budget is exhausted and the last
error (attempt 5's) is re-thrown after exactly 6 attempts; and a success after
a run of retryable failures is returned. -/
theorem c4_retry_policy (oracle : Nat → CallResult (List QuizItem)) :
    retryCalls oracle ≤ maxRetries + 1 ∧
    (∀ (k : Nat) (e : JsError), k ≤ maxRetries → (∀ i, i < k → RetryFailAt oracle i) →
      oracle k = CallResult.failure e → isRetryable e = false →
      generateBatchResult oracle = Except.error e ∧ retryCalls oracle = k + 1) ∧
    ((∀ i, i ≤ maxRetries → RetryFailAt oracle i) →
      ∃ e, oracle maxRetries = CallResult.failure e ∧
        generateBatchResult oracle = Except.error e ∧ retryCalls oracle = maxRetries + 1) ∧
    (∀ (k : Nat) (v : List QuizItem), k ≤ maxRetries → (∀ i, i < k → RetryFailAt oracle i) →
      oracle k = CallResult.success v →
      generateBatchResult oracle = Except.ok v ∧ retryCalls oracle = k + 1) := by
  refine ⟨?_, ?_, ?_, ?_⟩
  · exact retryGo_calls_le oracle (maxRetries + 1) 0 none (Nat.le_refl _) (Nat.zero_le _)
  · intro k e hk hfail he hr
    obtain ⟨last2, hskip⟩ := retryGo_skip oracle k hk hfail none
    have : retryGo oracle 0 none = (Except.error e, k + 1) :=
      hskip.trans (retryGo_fatal oracle k e hk he hr last2)
    exact ⟨by unfold generateBatchResult; rw [this], by unfold retryCalls; rw [this]⟩
  · intro hfail
    obtain ⟨last2, hskip⟩ :=
      retryGo_skip oracle maxRetries (Nat.le_refl _) (fun i hi => hfail i (Nat.le_of_lt hi)) none
    obtain ⟨e, he, hr⟩ := hfail maxRetries (Nat.le_refl _)
    have : retryGo oracle 0 none = (Except.error e, maxRetries + 1) :=
      hskip.trans (retryGo_exhaust oracle e he hr last2)
    exact ⟨e, he, by unfold generateBatchResult; rw [this], by unfold retryCalls; rw [this]⟩
  · intro k v hk hfail he
    obtain ⟨last2, hskip⟩ := retryGo_skip oracle k hk hfail none
    have : retryGo oracle 0 none = (Except.ok v, k + 1) :=
      hskip.trans (retryGo_success oracle k v hk he last2)
    exact ⟨by unfold generateBatchResult; rw [this], by unfold retryCalls; rw [this]⟩

theorem c4_witness :
    (1 ≤ maxRetries) ∧ (∀ i, i < 1 → RetryFailAt oracle0 i) ∧
    (oracle0 1 = CallResult.failure eFatal) ∧ (isRetryable eFatal = false) ∧
    (generateBatchResult oracle0 = Except.error eFatal ∧ retryCalls oracle0 = 2) := by
  have hfail : ∀ i, i < 1 → RetryFailAt oracle0 i := by
    intro i hi
    interval_cases i
    exact ⟨eRetry, rfl, by decide⟩
  exact ⟨by decide, hfail, rfl, by decide,
    (c4_retry_policy oracle0).2.1 1 eFatal (by decide) hfail rfl (by decide)⟩

/-! ## C1 — the merge-time dedup invariant -/

theorem isDuplicate_eq_false_forall {q : String} {db : List QuizItem}
    (h : isDuplicate q db = false) :
    ∀ x ∈ db, trimChars x.question.data ≠ trimChars q.data := by
  intro x hx heq
  have hany : db.any (fun item => trimChars item.question.data == trimChars q.data) = false := h
  rw [List.any_eq_false] at hany
  exact hany x hx (by rw [heq]; exact beq_self_eq_true _)

theorem mergeBank_preserves_bankOk (db : List QuizItem) (level : String)
    (new : List QuizItem) (hdb : BankOk db) (hnew : BankOk new) :
    BankOk (mergeBank db level new) := by
  have hsymm : ∀ {x y : QuizItem},
      (x.level = y.level → trimChars x.question.data ≠ trimChars y.question.data) →
      (y.level = x.level → trimChars y.question.data ≠ trimChars x.question.data) := by
    intro x y h hl he
    exact h hl.symm he.symm
  have hperm : List.Perm
      (db.filter (fun i => !(i.level == level)) ++ db.filter (fun i => i.level == level)) db :=
    List.Perm.trans List.perm_append_comm
      (List.filter_append_perm (fun i : QuizItem => i.level == level) db)
  have hpair1 : (db.filter (fun i => !(i.level == level)) ++
      db.filter (fun i => i.level == level)).Pairwise
        (fun a b => a.level = b.level →
          trimChars a.question.data ≠ trimChars b.question.data) :=
    (hperm.pairwise_iff fun h => hsymm h).mpr hdb
  have hpair2 : (new.filter (fun n => !(isDuplicate n.question db))).Pairwise
      (fun a b => a.level = b.level →
        trimChars a.question.data ≠ trimChars b.question.data) :=
    hnew.sublist (List.filter_sublist new)
  have hcross : ∀ a ∈ db.filter (fun i => !(i.level == level)) ++
      db.filter (fun i => i.level == level),
      ∀ b ∈ new.filter (fun n => !(isDuplicate n.question db)),
      a.level = b.level → trimChars a.question.data ≠ trimChars b.question.data := by
    intro a ha b hb _hl
    have haDb : a ∈ db := hperm.mem_iff.mp ha
    have hbFil := List.mem_filter.mp hb
    have hdup : isDuplicate b.question db = false := by
      have h2 := hbFil.2
      rwa [Bool.not_eq_true'] at h2
    exact isDuplicate_eq_false_forall hdup a haDb
  have hall : ((db.filter (fun i => !(i.level == level)) ++
      db.filter (fun i => i.level == level)) ++
      new.filter (fun n => !(isDuplicate n.question db))).Pairwise
        (fun a b => a.level = b.level →
          trimChars a.question.data ≠ trimChars b.question.data) :=
    List.pairwise_append.mpr ⟨hpair1, hpair2, hcross⟩
  rw [List.append_assoc] at hall
  have hsub : List.Sublist (mergeBank db level new)
      (db.filter (fun i => !(i.level == level)) ++ levelMergedRaw db level new) := by
    simp only [mergeBank, mergedLevel]
    split
    · exact List.Sublist.append_left (List.drop_sublist _ _) _
    · exact List.Sublist.refl _
  exact hall.sublist hsub

/-- C1 (amended): provided the bank already satisfies the invariant and each
generated batch is itself free of same-level duplicate trimmed question text,
merging batch `A` and then batch `B` at any level preserves the invariant:
no two same-level items of the result carry equal trimmed question text.
(The unamended claim is false: the merge dedups new items only against the
existing bank, not against each other — see the counterexample.) -/
theorem c1_merge_invariant (bank : List QuizItem) (level : String) (A B : List QuizItem)
    (hbank : BankOk bank) (hA : BankOk A) (hB : BankOk B) :
    BankOk (mergeBank (mergeBank bank level A) level B) :=
  mergeBank_preserves_bankOk _ _ _ (mergeBank_preserves_bankOk _ _ _ hbank hA) hB

/-- C1 counterexample: a batch holding two items with the same question text
(`dupA`, `dupB`) merged into the empty bank — followed by an empty second
batch — leaves two same-level items with equal trimmed question text. -/
theorem c1_counterexample :
    ¬ BankOk (mergeBank (mergeBank [] "3級" [dupA, dupB]) "3級" []) := by
  decide

theorem c1_witness :
    BankOk [] ∧ BankOk [itmA] ∧ BankOk [itmB] ∧
    BankOk (mergeBank (mergeBank [] "3級" [itmA]) "3級" [itmB]) :=
  ⟨by decide, by decide, by decide,
    c1_merge_invariant [] "3級" [itmA] [itmB] (by decide) (by decide) (by decide)⟩

/-! ## C6 — cooperative cancellation of the auto-fill loop -/

theorem errorPause_callTimes (flag : Nat → Bool) (e : JsError) (s : AutoState) :
    (errorPause flag e s).callTimes = s.callTimes := by
  simp only [errorPause]
  split
  · rfl
  · split
    · rfl
    · rfl

theorem restPhase_callTimes (flag : Nat → Bool) (target count : Nat) (s : AutoState) :
    (restPhase flag target count s).callTimes = s.callTimes := by
  simp only [restPhase]
  split
  · rfl
  · rfl

theorem autoLoop_calls_unflagged (oracle : Nat → BatchResult) (flag : Nat → Bool)
    (level : String) (target : Nat) :
    ∀ (fuel : Nat) (s : AutoState) (r : AutoResult) (s2 : AutoState),
      autoLoop oracle flag level target fuel s = some (r, s2) →
      (∀ τ ∈ s.callTimes, flag τ = false) →
      ∀ τ ∈ s2.callTimes, flag τ = false := by
  intro fuel
  induction fuel with
  | zero => intro s r s2 h _; cases h
  | succ n ih =>
    intro s r s2 h hs
    simp only [autoLoop] at h
    split at h
    · -- below target: the loop body runs
      next hlt =>
      split at h
      · -- flag already set at the while checkpoint: exit with the state unchanged
        rw [Option.some.injEq, Prod.mk.injEq] at h
        rw [← h.2]
        exact hs
      · next hflag =>
        have hflag0 : flag s.t = false := by
          rwa [Bool.not_eq_true] at hflag
        have hs1 : ∀ τ ∈ s.callTimes ++ [s.t], flag τ = false := by
          intro τ hτ
          rcases List.mem_append.mp hτ with hτ1 | hτ2
          · exact hs τ hτ1
          · rw [List.mem_singleton.mp hτ2]
            exact hflag0
        split at h
        · -- successful batch
          split at h
          · -- flag set right after the call returns: discard and exit
            rw [Option.some.injEq, Prod.mk.injEq] at h
            rw [← h.2]
            exact hs1
          · -- merge, rest, and iterate
            refine ih _ r s2 h ?_
            rw [restPhase_callTimes]
            exact hs1
        · -- failed batch
          split at h
          · rw [Option.some.injEq, Prod.mk.injEq] at h
            rw [← h.2]
            exact hs1
          · refine ih _ r s2 h ?_
            rw [restPhase_callTimes, errorPause_callTimes]
            exact hs1
    · -- target already reached: exit with the state unchanged
      rw [Option.some.injEq, Prod.mk.injEq] at h
      rw [← h.2]
      exact hs

theorem autoLoop_stops_now (oracle : Nat → BatchResult) (flag : Nat → Bool)
    (level : String) (target fuel : Nat) (s : AutoState)
    (hflag : ∀ τ, flag τ = true) (hlt : levelCount s.db level < target) :
    autoLoop oracle flag level target (fuel + 1) s =
      some (AutoResult.stoppedByUser (levelCount s.db level), s) := by
  simp only [autoLoop]
  rw [if_pos hlt, if_pos (hflag s.t)]

/-- C6: (1) every batch call the auto-fill loop issues happens at a logical
time where the stop flag reads false; (2) hence, the flag being monotone
(set once, never cleared) and set at time `T`, no call is issued at or after
`T`; (3) once the flag reads true at the `while` checkpoint and the target is
not yet reached, the loop exits immediately — no further call, state
untouched — reporting the stopped-by-user status; (4) that status is distinct
from the target-reached status. -/
theorem c6_cancellation (oracle : Nat → BatchResult) (flag : Nat → Bool)
    (level : String) (target fuel : Nat) (db : List QuizItem) :
    (∀ (r : AutoResult) (s2 : AutoState),
        runAuto oracle flag level target fuel db = some (r, s2) →
        ∀ τ ∈ s2.callTimes, flag τ = false) ∧
    (FlagMono flag → ∀ T : Nat, flag T = true →
      ∀ (r : AutoResult) (s2 : AutoState),
        runAuto oracle flag level target fuel db = some (r, s2) →
        ∀ τ ∈ s2.callTimes, τ < T) ∧
    ((∀ τ, flag τ = true) → ∀ s : AutoState, levelCount s.db level < target → 1 ≤ fuel →
      autoLoop oracle flag level target fuel s =
        some (AutoResult.stoppedByUser (levelCount s.db level), s)) ∧
    (∀ a b : Nat, AutoResult.stoppedByUser a ≠ AutoResult.targetReached b) := by
  have hcalls : ∀ (r : AutoResult) (s2 : AutoState),
      runAuto oracle flag level target fuel db = some (r, s2) →
      ∀ τ ∈ s2.callTimes, flag τ = false := by
    intro r s2 h
    exact autoLoop_calls_unflagged oracle flag level target fuel _ r s2 h
      (by intro τ hτ; cases hτ)
  refine ⟨hcalls, ?_, ?_, ?_⟩
  · intro hmono T hT r s2 h τ hτ
    by_contra hge
    have hle : T ≤ τ := Nat.le_of_not_lt hge
    have : flag τ = true := hmono T τ hle hT
    rw [hcalls r s2 h τ hτ] at this
    cases this
  · intro hflag s hlt hfuel
    obtain ⟨m, rfl⟩ : ∃ m, fuel = m + 1 :=
      ⟨fuel - 1, by omega⟩
    exact autoLoop_stops_now oracle flag level target m s hflag hlt
  · intro a b hab
    cases hab

theorem c6_witness :
    ((∀ τ : Nat, (fun _ : Nat => true) τ = true) ∧
      levelCount ([] : List QuizItem) "3級" < LEVEL_TARGETS "3級" ∧ 1 ≤ 1) ∧
    autoLoop (fun _ => BatchResult.failure eFatal) (fun _ => true) "3級"
        (LEVEL_TARGETS "3級") 1 { db := [], t := 0, calls := 0, callTimes := [] } =
      some (AutoResult.stoppedByUser
        (levelCount ([] : List QuizItem) "3級"),
        { db := [], t := 0, calls := 0, callTimes := [] }) := by
  refine ⟨⟨fun τ => rfl, by decide, Nat.le_refl 1⟩, ?_⟩
  exact (c6_cancellation (fun _ => BatchResult.failure eFatal) (fun _ => true) "3級"
    (LEVEL_TARGETS "3級") 1 []).2.2.1 (fun τ => rfl)
    { db := [], t := 0, calls := 0, callTimes := [] } (by decide) (Nat.le_refl 1)

/-! ## C2 — CSV export/import round trip -/

theorem splitOnChar_ne_nil (sep : Char) : ∀ cs : List Char, splitOnChar sep cs ≠ [] := by
  intro cs
  induction cs with
  | nil => simp [splitOnChar]
  | cons a rest ih =>
    simp only [splitOnChar]
    cases h : splitOnChar sep rest with
    | nil => simp
    | cons r rs => by_cases ha : a = sep <;> simp [ha]

theorem splitOnChar_no_sep (sep : Char) :
    ∀ cs : List Char, (sep ∈ cs → False) → splitOnChar sep cs = [cs] := by
  intro cs
  induction cs with
  | nil => intro _; rfl
  | cons a rest ih =>
    intro h
    have ha : ¬ a = sep := fun he => h (by rw [he]; exact List.mem_cons_self _ _)
    simp [splitOnChar, ih (fun hm => h (List.mem_cons_of_mem a hm)), ha]

theorem splitOnChar_append_cons (sep : Char) :
    ∀ (x w : List Char), (sep ∈ x → False) →
      splitOnChar sep (x ++ sep :: w) = x :: splitOnChar sep w := by
  intro x
  induction x with
  | nil =>
    intro w _
    simp only [List.nil_append, splitOnChar]
    cases h : splitOnChar sep w with
    | nil => exact absurd h (splitOnChar_ne_nil sep w)
    | cons r rs => simp
  | cons a x2 ih =>
    intro w h
    have ha : ¬ a = sep := fun he => h (by rw [he]; exact List.mem_cons_self _ _)
    have ih2 := ih w (fun hm => h (List.mem_cons_of_mem a hm))
    simp [List.cons_append, splitOnChar, ih2, ha]

theorem splitOnChar_joinWith (sep : Char) :
    ∀ rows : List (List Char), rows ≠ [] → (∀ r ∈ rows, sep ∈ r → False) →
      splitOnChar sep (joinWith [sep] rows) = rows := by
  intro rows
  induction rows with
  | nil => intro h _; exact absurd rfl h
  | cons x rest ih =>
    intro _ hall
    cases rest with
    | nil =>
      show splitOnChar sep (joinWith [sep] [x]) = [x]
      exact splitOnChar_no_sep sep x (hall x (List.mem_cons_self _ _))
    | cons y rest2 =>
      have hx : sep ∈ x → False := hall x (List.mem_cons_self _ _)
      have hrest : ∀ r ∈ y :: rest2, sep ∈ r → False :=
        fun r hr => hall r (List.mem_cons_of_mem x hr)
      have hjoin : joinWith [sep] (x :: y :: rest2) =
          x ++ sep :: joinWith [sep] (y :: rest2) := by
        rw [show joinWith [sep] (x :: y :: rest2) =
          x ++ [sep] ++ joinWith [sep] (y :: rest2) from rfl, List.append_assoc]
        rfl
      rw [hjoin, splitOnChar_append_cons sep x _ hx, ih (by simp) hrest]

theorem trimChars_eq_self {cs : List Char}
    (h1 : ∀ a, cs.head? = some a → a.isWhitespace = false)
    (h2 : ∀ a, cs.getLast? = some a → a.isWhitespace = false) : trimChars cs = cs := by
  unfold trimChars
  have hd : cs.dropWhile Char.isWhitespace = cs := by
    cases cs with
    | nil => rfl
    | cons a t =>
      rw [List.dropWhile_cons, if_neg (by rw [h1 a rfl]; exact Bool.false_ne_true)]
  rw [hd]
  have hr : cs.reverse.dropWhile Char.isWhitespace = cs.reverse := by
    cases hrev : cs.reverse with
    | nil => rfl
    | cons b u =>
      have hb : cs.getLast? = some b := by
        rw [← List.head?_reverse, hrev]
        rfl
      rw [List.dropWhile_cons, if_neg (by rw [h2 b hb]; exact Bool.false_ne_true)]
  rw [hr, List.reverse_reverse]

theorem joinWith_head? (sep : List Char) (x : List Char) (rest : List (List Char))
    (hx : x ≠ []) : (joinWith sep (x :: rest)).head? = x.head? := by
  cases rest with
  | nil => rfl
  | cons y rest2 =>
    rw [show joinWith sep (x :: y :: rest2) = x ++ sep ++ joinWith sep (y :: rest2) from rfl,
      List.append_assoc]
    cases x with
    | nil => exact absurd rfl hx
    | cons a t => rfl

theorem joinWith_getLast? (sep : List Char) :
    ∀ (rows : List (List Char)) (r : List Char), rows.getLast? = some r → r ≠ [] →
      (joinWith sep rows).getLast? = r.getLast? := by
  intro rows
  induction rows with
  | nil => intro r h; cases h
  | cons x rest ih =>
    intro r h hr
    cases rest with
    | nil =>
      obtain rfl : x = r := Option.some.inj h
      rfl
    | cons y rest2 =>
      have h2 : (y :: rest2).getLast? = some r := h
      have hjoin : joinWith sep (x :: y :: rest2) =
          x ++ (sep ++ joinWith sep (y :: rest2)) := by
        rw [show joinWith sep (x :: y :: rest2) =
          x ++ sep ++ joinWith sep (y :: rest2) from rfl, List.append_assoc]
      rw [hjoin, List.getLast?_append, List.getLast?_append, ih r h2 hr]
      obtain ⟨c, hc⟩ : ∃ c, r.getLast? = some c := by
        cases hcl : r.getLast? with
        | none => exact absurd (List.getLast?_eq_none_iff.mp hcl) hr
        | some c => exact ⟨c, rfl⟩
      rw [hc]
      rfl

theorem mem_joinWith (sep : List Char) (c : Char) :
    ∀ rows : List (List Char), c ∈ joinWith sep rows →
      c ∈ sep ∨ ∃ r ∈ rows, c ∈ r := by
  intro rows
  induction rows with
  | nil => intro h; cases h
  | cons x rest ih =>
    intro h
    cases rest with
    | nil => exact Or.inr ⟨x, List.mem_cons_self _ _, h⟩
    | cons y rest2 =>
      rw [show joinWith sep (x :: y :: rest2) =
        x ++ sep ++ joinWith sep (y :: rest2) from rfl] at h
      rcases List.mem_append.mp h with h1 | h2
      · rcases List.mem_append.mp h1 with hx | hs
        · exact Or.inr ⟨x, List.mem_cons_self _ _, hx⟩
        · exact Or.inl hs
      · rcases ih h2 with hs | ⟨r, hr, hcr⟩
        · exact Or.inl hs
        · exact Or.inr ⟨r, List.mem_cons_of_mem x hr, hcr⟩

theorem escapeQuotes_eq_self : ∀ cs : List Char, ('"' ∈ cs → False) → escapeQuotes cs = cs := by
  intro cs
  induction cs with
  | nil => intro _; rfl
  | cons a rest ih =>
    intro h
    have ha : (a == '"') = false := by
      cases hq : a == '"'
      · rfl
      · rw [beq_iff_eq] at hq
        exact absurd (by rw [hq]; exact List.mem_cons_self _ _) (fun x => h x)
    simp [escapeQuotes, ha, ih (fun hm => h (List.mem_cons_of_mem a hm))]

theorem cleanField_eq (s : String) (h : '"' ∈ s.data → False) :
    cleanField s = '"' :: (s.data ++ ['"']) := by
  unfold cleanField
  rw [escapeQuotes_eq_self s.data h]

theorem toCSVRowFields_clean (q : QuizItem) (hq : WellFormedForCsv q) :
    ∀ r ∈ toCSVRowFields q, (',' ∈ r → False) ∧ ('\n' ∈ r → False) := by
  obtain ⟨hl, hqn, h1, h2, h3, h4, he, ha, hw, hidx⟩ := hq
  have hquoted : ∀ s : String, CleanText s →
      (',' ∈ cleanField s → False) ∧ ('\n' ∈ cleanField s → False) := by
    intro s hs
    rw [cleanField_eq s hs.2.1]
    constructor
    · intro hmem
      rcases List.mem_cons.mp hmem with hc | hc
      · cases hc
      · rcases List.mem_append.mp hc with hc2 | hc2
        · exact hs.1 hc2
        · exact absurd (List.mem_singleton.mp hc2) (by decide)
    · intro hmem
      rcases List.mem_cons.mp hmem with hc | hc
      · cases hc
      · rcases List.mem_append.mp hc with hc2 | hc2
        · exact hs.2.2 hc2
        · exact absurd (List.mem_singleton.mp hc2) (by decide)
  intro r hr
  simp only [toCSVRowFields, List.mem_cons, List.not_mem_nil, or_false] at hr
  rcases hr with rfl | rfl | rfl | rfl | rfl | rfl | rfl | rfl | rfl | rfl | rfl
  · exact ⟨hl.1, hl.2.2⟩
  · exact hquoted _ hqn
  · exact hquoted _ h1
  · exact hquoted _ h2
  · exact hquoted _ h3
  · exact hquoted _ h4
  · rcases hidx with hk | hk | hk | hk <;> rw [hk] <;> exact ⟨by decide, by decide⟩
  · exact hquoted _ he
  · exact hquoted _ ha
  · exact ⟨hw.1, hw.2.2⟩
  · cases q.is_japan
    · exact ⟨by decide, by decide⟩
    · exact ⟨by decide, by decide⟩

theorem toCSVRowChars_no_newline (q : QuizItem) (hq : WellFormedForCsv q) :
    '\n' ∈ toCSVRowChars q → False := by
  intro h
  rcases mem_joinWith [','] '\n' (toCSVRowFields q) h with hs | ⟨r, hr, hcr⟩
  · cases List.mem_singleton.mp hs
  · exact (toCSVRowFields_clean q hq r hr).2 hcr

theorem toCSVRowChars_getLast (q : QuizItem) :
    (toCSVRowChars q).getLast? = some 'E' := by
  unfold toCSVRowChars
  rw [joinWith_getLast? [','] (toCSVRowFields q)
    ((if q.is_japan then "TRUE" else "FALSE").data) rfl (by cases q.is_japan <;> decide)]
  cases q.is_japan <;> decide

theorem toCSVRowChars_ne_nil (q : QuizItem) : toCSVRowChars q ≠ [] := by
  intro h
  have := toCSVRowChars_getLast q
  rw [h] at this
  cases this

theorem splitRow (q : QuizItem) (hq : WellFormedForCsv q) :
    splitOnChar ',' (toCSVRowChars q) = toCSVRowFields q := by
  unfold toCSVRowChars
  exact splitOnChar_joinWith ',' (toCSVRowFields q) (by simp [toCSVRowFields])
    (fun r hr hc => (toCSVRowFields_clean q hq r hr).1 hc)

theorem string_data_ext (a b : String) (h : a.data = b.data) : a = b := by
  cases a
  cases b
  cases h
  rfl

theorem quoteStr_data (s : String) : (quoteStr s).data = '"' :: (s.data ++ ['"']) := by
  unfold quoteStr
  rw [String.data_append, String.data_append]
  rfl

theorem rowToItem_requote (idStr : String) (q : QuizItem) (hq : WellFormedForCsv q) :
    rowToItem idStr (toCSVRowFields q) = requote idStr q := by
  obtain ⟨hl, hqn, h1, h2, h3, h4, he, ha, hw, hidx⟩ := hq
  have hclean : ∀ s : String, CleanText s → String.mk (cleanField s) = quoteStr s := by
    intro s hs
    apply string_data_ext
    show cleanField s = (quoteStr s).data
    rw [cleanField_eq s hs.2.1, quoteStr_data]
  have hparse : jsParseIntL ((numToString q.correct_idx).data) = q.correct_idx := by
    rcases hidx with hk | hk | hk | hk <;> rw [hk] <;> decide
  have hjp : (toUpperChars ((if q.is_japan then "TRUE" else "FALSE").data) == "TRUE".data) =
      q.is_japan := by
    cases q.is_japan <;> decide
  show QuizItem.mk idStr (String.mk q.level.data) (String.mk (cleanField q.question))
      (String.mk (cleanField q.option1)) (String.mk (cleanField q.option2))
      (String.mk (cleanField q.option3)) (String.mk (cleanField q.option4))
      (jsParseIntL ((numToString q.correct_idx).data)) (String.mk (cleanField q.explanation))
      (String.mk (cleanField q.advanced_explanation)) (String.mk q.wiki_link.data)
      (toUpperChars ((if q.is_japan then "TRUE" else "FALSE").data) == "TRUE".data) =
    requote idStr q
  rw [hclean _ hqn, hclean _ h1, hclean _ h2, hclean _ h3, hclean _ h4, hclean _ he,
    hclean _ ha, hparse, hjp]
  rfl

theorem csvLines_toCSV (items : List QuizItem) (h : ∀ q ∈ items, WellFormedForCsv q) :
    csvLines (toCSV items) = CSV_HEADER.data :: items.map toCSVRowChars := by
  unfold csvLines
  have hdata : (toCSV items).data =
      joinWith ['\n'] (CSV_HEADER.data :: items.map toCSVRowChars) := rfl
  rw [hdata]
  have hnorows : ∀ r ∈ CSV_HEADER.data :: items.map toCSVRowChars, '\n' ∈ r → False := by
    intro r hr
    rcases List.mem_cons.mp hr with hr1 | hr2
    · rw [hr1]; decide
    · obtain ⟨q, hq, rfl⟩ := List.mem_map.mp hr2
      exact toCSVRowChars_no_newline q (h q hq)
  have htrim : trimChars (joinWith ['\n'] (CSV_HEADER.data :: items.map toCSVRowChars)) =
      joinWith ['\n'] (CSV_HEADER.data :: items.map toCSVRowChars) := by
    apply trimChars_eq_self
    · intro a hhead
      rw [joinWith_head? ['\n'] CSV_HEADER.data _ (by decide)] at hhead
      have ha : a = 'l' := Option.some.inj hhead |>.symm
      rw [ha]
      rfl
    · intro a hlast
      cases items with
      | nil =>
        have ha : a = 'n' := by
          rw [show (joinWith ['\n'] (CSV_HEADER.data :: ([] : List QuizItem).map
            toCSVRowChars)).getLast? = some 'n' from by decide] at hlast
          exact (Option.some.inj hlast).symm
        rw [ha]
        rfl
      | cons i is =>
        obtain ⟨la, hla⟩ : ∃ la, (i :: is).getLast? = some la := by
          cases hx : (i :: is).getLast? with
          | none => exact absurd (List.getLast?_eq_none_iff.mp hx) (by simp)
          | some la => exact ⟨la, rfl⟩
        have hrows : (CSV_HEADER.data :: (i :: is).map toCSVRowChars).getLast? =
            some (toCSVRowChars la) := by
          show ((i :: is).map toCSVRowChars).getLast? = some (toCSVRowChars la)
          rw [List.getLast?_map, hla]
          rfl
        rw [joinWith_getLast? ['\n'] _ (toCSVRowChars la) hrows (toCSVRowChars_ne_nil la),
          toCSVRowChars_getLast la] at hlast
        have ha : a = 'E' := (Option.some.inj hlast).symm
        rw [ha]
        rfl
  rw [htrim]
  exact splitOnChar_joinWith '\n' _ (by simp) hnorows

/-- C2 (amended): for well-formed items — `correct_idx` in 0..3 and no comma,
double quote, or newline in any text field — importing the exported CSV gives
back the items in order with `level`, `correct_idx`, `wiki_link` and
`is_japan` preserved exactly and fresh ids, but with each `clean`-ed text
field (question, the four options, both explanations) wrapped in one extra
pair of double quotes: the exporter's quoting is never stripped by the naive
importer.  (The unamended `parse(serialize(items)) == items` is false — see
the counterexample.) -/
theorem c2_roundtrip_requote (idGen : Nat → String) (items : List QuizItem)
    (h : ∀ q ∈ items, WellFormedForCsv q) :
    parseCSV idGen (toCSV items) = items.enum.map (fun p => requote (idGen p.1) p.2) := by
  have hstart : csvStart (toCSV items) = 1 := by
    unfold csvStart
    rw [csvLines_toCSV items h]
    show (if listStartsWith CSV_HEADER.data ("level,question".data) = true then 1 else 0) = 1
    rw [if_pos (by decide)]
  simp only [parseCSV]
  rw [csvLines_toCSV items h, hstart, List.drop_succ_cons, List.drop_zero]
  have hmap : (items.map toCSVRowChars).map (fun l => splitOnChar ',' l) =
      items.map (fun q => toCSVRowFields q) := by
    rw [List.map_map]
    exact List.map_congr_left (fun q hq => splitRow q (h q hq))
  rw [hmap]
  have hfil : (items.map (fun q => toCSVRowFields q)).filter (fun row => 11 ≤ row.length) =
      items.map (fun q => toCSVRowFields q) := by
    apply List.filter_eq_self.mpr
    intro row hrow
    obtain ⟨q, _, rfl⟩ := List.mem_map.mp hrow
    rw [show (toCSVRowFields q).length = 11 from rfl]
    decide
  rw [hfil, List.enum_map, List.map_map]
  exact List.map_congr_left (fun p hp => by
    show rowToItem (idGen p.1) (toCSVRowFields p.2) = requote (idGen p.1) p.2
    exact rowToItem_requote (idGen p.1) p.2 (h p.2 (List.snd_mem_of_mem_enum hp)))

set_option maxRecDepth 4096 in
/-- C2 counterexample: even when the id generator reproduces the original id
and the single item has no comma, quote, or newline in any text field, the
round trip does not return the item — its question comes back wrapped in
quotes. -/
theorem c2_counterexample :
    parseCSV (fun _ => itmA.id) (toCSV [itmA]) ≠ [itmA] := by
  decide

theorem c2_witness :
    (∀ q ∈ [itmA], WellFormedForCsv q) ∧
    parseCSV (fun _ => "z") (toCSV [itmA]) =
      ([itmA].enum.map (fun p => requote ((fun _ : Nat => "z") p.1) p.2)) :=
  ⟨by decide, c2_roundtrip_requote (fun _ => "z") [itmA] (by decide)⟩
